import Mathlib

/-!
Shallow embedding of the jsonq library (markkurossi/jsonq): a path-query
language over decoded JSON values, with a query lexer, a recursive-descent
parser, an evaluator for dotted paths with bracketed filters, typed getters,
and a selection context with typed extraction.

Modelling conventions:
* Go `interface` JSON values become the inductive `JValue`.  JSON numbers are
  `float64` in Go; they are modelled as `Int` here because every claim under
  verification constrains numeric fields to integral values, and `GetInt`
  (Go `int(float64)`) is the identity on integral values.
* Go maps (`map[string]interface` with unique keys) become association lists
  looked up by first match.
* Fallible Go functions returning `(T, error)` become `Except Err T`.
* The evaluator's re-entrancy (a filter's field lookup re-parses and
  re-evaluates a sub-query) is made total with an explicit fuel argument;
  fuel `q.length + 1` always suffices because each nested field query is a
  strict substring of the filter text of its parent query.
-/

namespace Jsonq

deriving instance DecidableEq for Except

/-- JSON values as produced by Go's `encoding/json` unmarshalling into an
`interface` value: null, booleans, numbers, strings, arrays and objects. -/
inductive JValue where
  | null
  | bool (b : Bool)
  | num (n : Int)
  | str (s : String)
  | arr (items : List JValue)
  | obj (fields : List (String × JValue))

/-- Go `%T` type name of the dynamic value, as used in error messages. -/
def typeName : JValue → String
  | .null => "<nil>"
  | .bool _ => "bool"
  | .num _ => "float64"
  | .str _ => "string"
  | .arr _ => "[]interface \x7b\x7d"
  | .obj _ => "map[string]interface \x7b\x7d"

/-- Key lookup in a JSON object (Go map indexing; keys are unique in
unmarshalled JSON, so first-match association-list lookup is faithful). -/
def lookupJ : List (String × JValue) → String → Option JValue
  | [], _ => none
  | (k, v) :: rest, key => if k = key then some v else lookupJ rest key

/-- Errors of the library.  Each constructor stands for one `error` value
produced by the Go code; `eofE` models `io.EOF` escaping the lexer, and
`fuelOut` is the fuel-exhaustion marker of the embedding (unreachable for
the fuel budgets used by the entry points). -/
inductive Err where
  | eofE
  | synErr (lookingAt : String)
  | rangeE (lit : String)
  | cantIndex (path : String) (ty : String)
  | notFound (path : String)
  | optionalMissing
  | notString (q : String) (ty : String)
  | notFloat (q : String) (ty : String)
  | notBool (q : String) (ty : String)
  | notStringAtom (ty : String)
  | cmpNotImpl (op : String) (rhs : String)
  | evalNotImpl (op : String)
  | logicalInvalid (op : String)
  | nilAtom
  | fuelOut
  | extractInvalid (ty : String)
  | emptySelection
  | multipleResults
  | ptrNotImpl
  | fieldNotSupported (ty : String)
  | slicePtrInvalid (ty : String)
  | sliceElemNotSupported (ty : String)
  | targetNotSupported (ty : String)
deriving DecidableEq

/-- Token kinds of the query lexer. -/
inductive tokenType where
  | tDot
  | tLBracket
  | tRBracket
  | tQuestionMark
  | tAnd
  | tOr
  | tEq
  | tNeq
  | tLt
  | tLe
  | tGt
  | tGe
  | tString
  | tInt
deriving DecidableEq

/-- Printable operator names (the lexer's `tokens` map). -/
def opName : tokenType → String
  | .tDot => "."
  | .tLBracket => "["
  | .tRBracket => "]"
  | .tQuestionMark => "?"
  | .tAnd => "&&"
  | .tOr => "||"
  | .tEq => "=="
  | .tNeq => "!="
  | .tLt => "<"
  | .tLe => "<="
  | .tGt => ">"
  | .tGe => ">="
  | .tString => "string"
  | .tInt => "int"

/-- A lexer token: kind plus string/integer payloads (Go zero values when
not applicable). -/
structure Token where
  typ : tokenType
  strVal : String
  intVal : Int
deriving DecidableEq

/-- Letter test for identifier starts.  Go uses `unicode.IsLetter`; the model
uses ASCII letters, which coincides on every input the library's queries and
tests use. -/
def isLetterC (c : Char) : Bool := c.isAlpha

/-- Digit test.  Go uses `unicode.IsDigit`; ASCII digits in the model. -/
def isDigitC (c : Char) : Bool := c.isDigit

/-- Characters allowed after the first character of a bare identifier. -/
def isIdentC (c : Char) : Bool := isLetterC c || isDigitC c || c = '_'

/-- Identifier scan loop: consume letters, digits and underscores, stopping
before (Go `UnreadRune`) the first other character. -/
def symLoop (acc : List Char) : List Char → (List Char × List Char)
  | [] => (acc, [])
  | c :: cs => if isIdentC c then symLoop (acc ++ [c]) cs else (acc, c :: cs)

/-- Digit scan loop for integer literals. -/
def numLoop (acc : List Char) : List Char → (List Char × List Char)
  | [] => (acc, [])
  | c :: cs => if isDigitC c then numLoop (acc ++ [c]) cs else (acc, c :: cs)

/-- Quoted-string scan loop: consume characters until the closing quote
(no escape processing, matching the source's known limitation); `none` when
the input ends inside the literal (Go: `io.EOF` escapes). -/
def strLoop (acc : List Char) : List Char → Option (List Char × List Char)
  | [] => none
  | c :: cs => if c = '"' then some (acc, cs) else strLoop (acc ++ [c]) cs

/-- Decimal value of a digit run. -/
def digitsVal (ds : List Char) : Nat := ds.foldl (fun a c => a * 10 + (c.toNat - 48)) 0

/-- Largest value of Go's 64-bit `int`. -/
def maxGoInt : Nat := 9223372036854775807

/-- Go `strconv.Atoi` on a nonempty digit run: the decimal value, or a range
error when it does not fit a native `int`. -/
def atoi (ds : List Char) : Except Err Int :=
  if digitsVal ds ≤ maxGoInt then .ok (Int.ofNat (digitsVal ds)) else .error (.rangeE (String.mk ds))

/-- Result of one lexer `Get` call: a token with the remaining input, end of
input (`io.EOF`), or a lex error. -/
inductive LexOut where
  | tok (t : Token) (rest : List Char)
  | eof
  | fail (e : Err)

/-- Modelled from the spec: the revision's lexer source (the `newLexer` /
`tokenType` reader with `?`, `&&`, `||`, `!=`, `<`, `<=`, `>`, `>=` support
that the query parser in src calls) is absent from src/, which only holds
earlier lexer revisions; this definition follows §4.1 of the spec.  It
recognizes the single-character tokens `.` `[` `]` `?`, the two-character
operators `&&` `||` `==` `!=` `<=` `>=` with single-character fallbacks for
`<` and `>`, double-quoted string literals without escape processing, bare
identifiers (letter, then letters/digits/underscore) tokenized as strings,
and decimal integer literals parsed to a native integer.  A malformed
numeral is a fatal lex error; an unexpected character is a syntax error
reported without consuming it. -/
def lexGet : List Char → LexOut
  | [] => .eof
  | c :: cs =>
    if c = '.' then .tok ⟨.tDot, "", 0⟩ cs
    else if c = '[' then .tok ⟨.tLBracket, "", 0⟩ cs
    else if c = ']' then .tok ⟨.tRBracket, "", 0⟩ cs
    else if c = '?' then .tok ⟨.tQuestionMark, "", 0⟩ cs
    else if c = '&' then
      match cs with
      | [] => .eof
      | d :: cs2 => if d = '&' then .tok ⟨.tAnd, "", 0⟩ cs2 else .fail (.synErr (String.mk (d :: cs2)))
    else if c = '|' then
      match cs with
      | [] => .eof
      | d :: cs2 => if d = '|' then .tok ⟨.tOr, "", 0⟩ cs2 else .fail (.synErr (String.mk (d :: cs2)))
    else if c = '=' then
      match cs with
      | [] => .eof
      | d :: cs2 => if d = '=' then .tok ⟨.tEq, "", 0⟩ cs2 else .fail (.synErr (String.mk (d :: cs2)))
    else if c = '!' then
      match cs with
      | [] => .eof
      | d :: cs2 => if d = '=' then .tok ⟨.tNeq, "", 0⟩ cs2 else .fail (.synErr (String.mk (d :: cs2)))
    else if c = '<' then
      match cs with
      | [] => .tok ⟨.tLt, "", 0⟩ []
      | d :: cs2 => if d = '=' then .tok ⟨.tLe, "", 0⟩ cs2 else .tok ⟨.tLt, "", 0⟩ (d :: cs2)
    else if c = '>' then
      match cs with
      | [] => .tok ⟨.tGt, "", 0⟩ []
      | d :: cs2 => if d = '=' then .tok ⟨.tGe, "", 0⟩ cs2 else .tok ⟨.tGt, "", 0⟩ (d :: cs2)
    else if c = '"' then
      match strLoop [] cs with
      | some (s, rest) => .tok ⟨.tString, String.mk s, 0⟩ rest
      | none => .eof
    else if isLetterC c then
      match symLoop [c] cs with
      | (sym, rest) => .tok ⟨.tString, String.mk sym, 0⟩ rest
    else if isDigitC c then
      match numLoop [c] cs with
      | (num, rest) =>
        match atoi num with
        | .ok n => .tok ⟨.tInt, "", n⟩ rest
        | .error e => .fail e
    else .fail (.synErr (String.mk (c :: cs)))

/-- Parser-side lexer state: remaining input plus the one-token push-back
buffer (`Lexer.unget`). -/
structure PSt where
  rest : List Char
  unget : Option Token

/-- Result of the parser's `lexer.Get()` call. -/
inductive GetRes where
  | t (tk : Token)
  | eof
  | fail (e : Err)

/-- The parser's token read: the push-back buffer first, then `lexGet`. -/
def pget (st : PSt) : GetRes × PSt :=
  match st.unget with
  | some tk => (.t tk, ⟨st.rest, none⟩)
  | none =>
    match lexGet st.rest with
    | .tok tk rest2 => (.t tk, ⟨rest2, none⟩)
    | .eof => (.eof, ⟨st.rest, none⟩)
    | .fail e => (.fail e, ⟨st.rest, none⟩)

/-- `Lexer.Unget`: push one token back. -/
def pUnget (st : PSt) (tk : Token) : PSt := ⟨st.rest, some tk⟩

/-- `Lexer.SyntaxError()` at the current position.  The source formats the
consumed prefix and the remaining suffix; the model keeps the remaining
suffix (the "looking at" part). -/
def synErrAt (st : PSt) : Err := .synErr (String.mk st.rest)

/-- A filter atom: a string (identifier or quoted literal) or an integer. -/
inductive Atom where
  | str (s : String)
  | int (n : Int)
deriving DecidableEq

/-- The token type stored in the atom (`atom.Type`). -/
def Atom.typ : Atom → tokenType
  | .str _ => .tString
  | .int _ => .tInt

/-- `atom.StrVal` with Go zero value for integer atoms. -/
def Atom.strVal : Atom → String
  | .str s => s
  | .int _ => ""

/-- `atom.IntVal` with Go zero value for string atoms. -/
def Atom.intVal : Atom → Int
  | .str _ => 0
  | .int n => n

/-- Filter expressions: logical nodes (`&&`/`||`) and comparative nodes; a
comparative with `right = none` is the degenerate single-atom (INDEX) form
produced when no comparison operator follows (its `op` is the left atom's
token type, as in `parseComparative`). -/
inductive QFilter where
  | logical (left : QFilter) (op : tokenType) (right : QFilter)
  | comp (left : Atom) (op : tokenType) (right : Option Atom)
deriving DecidableEq

/-- A parsed query: a chain of key-selection steps.  The Go `query` struct
has a nilable `left` back-link; the two constructors stand for `left == nil`
(chain root) and `left != nil`. -/
inductive Query where
  | root (optional : Bool) (key : String) (filters : List QFilter)
  | step (left : Query) (optional : Bool) (key : String) (filters : List QFilter)
deriving DecidableEq

/-- `query.optional` of the node. -/
def Query.optFlag : Query → Bool
  | .root o _ _ => o
  | .step _ o _ _ => o

/-- `query.key` of the node. -/
def Query.key : Query → String
  | .root _ k _ => k
  | .step _ _ k _ => k

/-- `query.filters` of the node. -/
def Query.filters : Query → List QFilter
  | .root _ _ fs => fs
  | .step _ _ _ fs => fs

/-- Go `%q` of a key (none of the library's keys need escaping). -/
def quoteGo (s : String) : String := "\"" ++ s ++ "\""

/-- `atom.String()`. -/
def Atom.render : Atom → String
  | .str s => quoteGo s
  | .int n => toString n

/-- `logical.String()` / `comparative.String()`; a nil right-hand atom
prints as Go's `<nil>`. -/
def QFilter.render : QFilter → String
  | .logical l op r => l.render ++ opName op ++ r.render
  | .comp l op r =>
    l.render ++ opName op ++ (match r with | some a => a.render | none => "<nil>")

/-- Renderings of a node's attached filters, each in brackets. -/
def renderFilters (fs : List QFilter) : String :=
  String.join (fs.map (fun f => "[" ++ f.render ++ "]"))

/-- `query.String()`: the dotted chain with `?` markers, `%q`-quoted keys
and bracketed filters. -/
def Query.render : Query → String
  | .root o k fs => (if o then "?" else "") ++ quoteGo k ++ renderFilters fs
  | .step l o k fs => l.render ++ "." ++ (if o then "?" else "") ++ quoteGo k ++ renderFilters fs

/-- `parseAtom`: one token that must be a string or an integer. -/
def parseAtom (st : PSt) : Except Err (Atom × PSt) :=
  match pget st with
  | (.fail e, _) => .error e
  | (.eof, _) => .error .eofE
  | (.t tk, st2) =>
    match tk.typ with
    | .tString => .ok (.str tk.strVal, st2)
    | .tInt => .ok (.int tk.intVal, st2)
    | _ => .error (synErrAt st2)

/-- `parseComparative`: an atom, optionally followed by a comparison
operator and a second atom; any other following token is pushed back and
the degenerate single-atom comparative is returned. -/
def parseComparative (st : PSt) : Except Err (QFilter × PSt) :=
  match parseAtom st with
  | .error e => .error e
  | .ok (left, st2) =>
    match pget st2 with
    | (.fail e, _) => .error e
    | (.eof, _) => .error .eofE
    | (.t tk, st3) =>
      match tk.typ with
      | .tEq | .tNeq | .tLt | .tLe | .tGt | .tGe =>
        match parseAtom st3 with
        | .error e => .error e
        | .ok (right, st4) => .ok (.comp left tk.typ (some right), st4)
      | _ => .ok (.comp left left.typ none, pUnget st3 tk)

/-- `parseLogical`'s left-associative loop: fold `&&`/`||` comparatives
until the closing bracket. -/
def parseLogicalLoop : Nat → QFilter → PSt → Except Err (QFilter × PSt)
  | 0, _, _ => .error .fuelOut
  | fuel + 1, left, st =>
    match pget st with
    | (.fail e, _) => .error e
    | (.eof, _) => .error .eofE
    | (.t tk, st2) =>
      match tk.typ with
      | .tRBracket => .ok (left, st2)
      | .tAnd | .tOr =>
        match parseComparative st2 with
        | .error e => .error e
        | .ok (right, st3) => parseLogicalLoop fuel (.logical left tk.typ right) st3
      | _ => .error (synErrAt st2)

/-- `parseLogical`: one comparative, then the logical loop. -/
def parseLogical (fuel : Nat) (st : PSt) : Except Err (QFilter × PSt) :=
  match parseComparative st with
  | .error e => .error e
  | .ok (left, st2) => parseLogicalLoop fuel left st2

/-- The dotted-key loop of `parseQuery`: while the next token is `.`, read a
key and extend the chain; any other token is pushed back. -/
def parseDotsLoop : Nat → Query → PSt → Except Err (Query × PSt)
  | 0, _, _ => .error .fuelOut
  | fuel + 1, q, st =>
    match pget st with
    | (.fail e, _) => .error e
    | (.eof, st2) => .ok (q, st2)
    | (.t tk, st2) =>
      match tk.typ with
      | .tDot =>
        match pget st2 with
        | (.fail e, _) => .error e
        | (.eof, _) => .error .eofE
        | (.t tk2, st3) =>
          match tk2.typ with
          | .tString => parseDotsLoop fuel (.step q false tk2.strVal []) st3
          | _ => .error (synErrAt st3)
      | _ => .ok (q, pUnget st2 tk)

/-- Append a parsed filter to the final node of the chain. -/
def addFilter : Query → QFilter → Query
  | .root o k fs, f => .root o k (fs ++ [f])
  | .step l o k fs, f => .step l o k (fs ++ [f])

/-- The trailing-filter loop of `parseQuery`: each `[` starts one filter
parsed by `parseLogical`; end of input ends the query. -/
def parseFiltersLoop : Nat → Query → PSt → Except Err Query
  | 0, _, _ => .error .fuelOut
  | fuel + 1, q, st =>
    match pget st with
    | (.fail e, _) => .error e
    | (.eof, _) => .ok q
    | (.t tk, st2) =>
      match tk.typ with
      | .tLBracket =>
        match parseLogical (st2.rest.length + 1) st2 with
        | .error e => .error e
        | .ok (f, st3) => parseFiltersLoop fuel (addFilter q f) st3
      | _ => .error (synErrAt st2)

/-- The body of `parseQuery` after the optional `?`: the first key must be a
string token; then the dotted loop and the filter loop. -/
def parseQueryBody (fuel : Nat) (optional : Bool) (tk : Token) (st2 : PSt) : Except Err Query :=
  match tk.typ with
  | .tString =>
    match parseDotsLoop fuel (.root optional tk.strVal []) st2 with
    | .error e => .error e
    | .ok (q, st3) => parseFiltersLoop fuel q st3
  | _ => .error (synErrAt st2)

/-- `parseQuery`: optional leading `?`, then the key chain and filters. -/
def parseQuery (fuel : Nat) (st : PSt) : Except Err Query :=
  match pget st with
  | (.fail e, _) => .error e
  | (.eof, _) => .error .eofE
  | (.t tk, st2) =>
    if tk.typ = .tQuestionMark then
      match pget st2 with
      | (.fail e, _) => .error e
      | (.eof, _) => .error .eofE
      | (.t tk2, st3) => parseQueryBody fuel true tk2 st3
    else parseQueryBody fuel false tk st2

/-- `parse`: run `parseQuery` on a fresh lexer.  The fuel bounds the number
of loop iterations, each of which consumes input; `length + 2` is always
enough. -/
def parse (q : String) : Except Err Query :=
  parseQuery (q.length + 2) ⟨q.data, none⟩

/-- Lexicographic strict order on character lists. -/
def ltCharList : List Char → List Char → Bool
  | [], [] => false
  | [], _ :: _ => true
  | _ :: _, [] => false
  | a :: as, b :: bs => if a = b then ltCharList as bs else decide (a < b)

/-- Go `strings.Compare(a, b) < 0` (byte-lexicographic; UTF-8 byte order and
codepoint order coincide, so character-lexicographic order is faithful). -/
def goStrLt (a b : String) : Bool := ltCharList a.data b.data

/-- `GetString`'s dynamic-type switch on an already-evaluated value: strings
pass through, null becomes the empty string, everything else is a type
mismatch naming the query and the `%T` type. -/
def toStringRes (q : String) (v : JValue) : Except Err String :=
  match v with
  | .str s => .ok s
  | .null => .ok ""
  | _ => .error (.notString q (typeName v))

/-- `GetNumber`'s dynamic-type switch (`float64` modelled as `Int`). -/
def toNumRes (q : String) (v : JValue) : Except Err Int :=
  match v with
  | .num n => .ok n
  | _ => .error (.notFloat q (typeName v))

/-- `GetBool`'s dynamic-type switch. -/
def toBoolRes (q : String) (v : JValue) : Except Err Bool :=
  match v with
  | .bool b => .ok b
  | _ => .error (.notBool q (typeName v))

/-- `atom.GetString`: the string payload, or an error for integer atoms. -/
def atomGetString (a : Atom) : Except Err String :=
  match a with
  | .str s => .ok s
  | .int _ => .error (.notStringAtom (opName a.typ))

/-- `comparative.Eval` (and `logical.Eval`), parameterized by the field
getters (`atom.GetStringField` / `atom.GetIntField` resolve a field name on
the candidate element by re-entering the query pipeline; the re-entrant
getters are supplied by `evalQueryFuel` one fuel level down). -/
def QFilter.evalF (gS : JValue → String → Except Err String)
    (gI : JValue → String → Except Err Int) :
    QFilter → Nat → JValue → Except Err Bool
  | .logical l op r, idx, v =>
    match QFilter.evalF gS gI l idx v with
    | .error e => .error e
    | .ok lVal =>
      match QFilter.evalF gS gI r idx v with
      | .error e => .error e
      | .ok rVal =>
        match op with
        | .tAnd => .ok (lVal && rVal)
        | .tOr => .ok (lVal || rVal)
        | _ => .error (.logicalInvalid (opName op))
  | .comp left op right, idx, v =>
    match op with
    | .tEq =>
      match right with
      | none => .error .nilAtom
      | some r =>
        match r with
        | .str s =>
          match atomGetString left with
          | .error e => .error e
          | .ok field =>
            match gS v field with
            | .error e => .error e
            | .ok val => .ok (decide (val = s))
        | .int n =>
          match atomGetString left with
          | .error e => .error e
          | .ok field =>
            match gI v field with
            | .error e => .error e
            | .ok val => .ok (decide (val = n))
    | .tNeq =>
      match right with
      | none => .error .nilAtom
      | some r =>
        match r with
        | .str s =>
          match atomGetString left with
          | .error e => .error e
          | .ok field =>
            match gS v field with
            | .error e => .error e
            | .ok val => .ok (decide (val ≠ s))
        | .int n =>
          match atomGetString left with
          | .error e => .error e
          | .ok field =>
            match gI v field with
            | .error e => .error e
            | .ok val => .ok (decide (val ≠ n))
    | .tLt =>
      match right with
      | none => .error .nilAtom
      | some r =>
        match r with
        | .str s =>
          match atomGetString left with
          | .error e => .error e
          | .ok field =>
            match gS v field with
            | .error e => .error e
            | .ok val => .ok (goStrLt val s)
        | .int n =>
          match atomGetString left with
          | .error e => .error e
          | .ok field =>
            match gI v field with
            | .error e => .error e
            | .ok val => .ok (decide (val < n))
    | .tLe =>
      match right with
      | none => .error .nilAtom
      | some r =>
        match r with
        | .str s =>
          match atomGetString left with
          | .error e => .error e
          | .ok field =>
            match gS v field with
            | .error e => .error e
            | .ok val => .ok (!goStrLt s val)
        | .int n =>
          match atomGetString left with
          | .error e => .error e
          | .ok field =>
            match gI v field with
            | .error e => .error e
            | .ok val => .ok (decide (val ≤ n))
    | .tGt =>
      match right with
      | none => .error .nilAtom
      | some r =>
        match r with
        | .str s =>
          match atomGetString left with
          | .error e => .error e
          | .ok field =>
            match gS v field with
            | .error e => .error e
            | .ok val => .ok (goStrLt s val)
        | .int n =>
          match atomGetString left with
          | .error e => .error e
          | .ok field =>
            match gI v field with
            | .error e => .error e
            | .ok val => .ok (decide (val > n))
    | .tGe =>
      match right with
      | none => .error .nilAtom
      | some r =>
        match r with
        | .str s =>
          match atomGetString left with
          | .error e => .error e
          | .ok field =>
            match gS v field with
            | .error e => .error e
            | .ok val => .ok (!goStrLt val s)
        | .int n =>
          match atomGetString left with
          | .error e => .error e
          | .ok field =>
            match gI v field with
            | .error e => .error e
            | .ok val => .ok (decide (val ≥ n))
    | .tInt => .ok (decide ((idx : Int) = left.intVal))
    | _ => .error (.evalNotImpl (opName op))

/-- One filter applied to a working sequence: keep the elements, at their
positional indices, for which the predicate holds (the inner loop of
`query.Eval`'s filter stage). -/
def runFilterF (gS : JValue → String → Except Err String)
    (gI : JValue → String → Except Err Int) (f : QFilter) :
    Nat → List JValue → Except Err (List JValue)
  | _, [] => .ok []
  | idx, item :: rest =>
    match QFilter.evalF gS gI f idx item with
    | .error e => .error e
    | .ok keep =>
      match runFilterF gS gI f (idx + 1) rest with
      | .error e => .error e
      | .ok tail => .ok (if keep then item :: tail else tail)

/-- The filter pipeline of `query.Eval`: each filter narrows the surviving
sequence of the previous one. -/
def filtersLoopF (gS : JValue → String → Except Err String)
    (gI : JValue → String → Except Err Int) :
    List QFilter → List JValue → Except Err (List JValue)
  | [], items => .ok items
  | f :: fs, items =>
    match runFilterF gS gI f 0 items with
    | .error e => .error e
    | .ok filtered => filtersLoopF gS gI fs filtered

/-- The per-node body of `query.Eval` after the back-link: require a map,
look up the key (optional-missing sentinel or not-found error when absent),
return the child directly when the node has no filters, otherwise coerce it
to a working sequence and run the filter pipeline. -/
def evalKeyStep (gS : JValue → String → Except Err String)
    (gI : JValue → String → Except Err Int) (q : Query) (v : JValue) :
    Except Err JValue :=
  match v with
  | .obj fields =>
    match lookupJ fields q.key with
    | none =>
      if q.optFlag then .error .optionalMissing else .error (.notFound q.render)
    | some child =>
      match q.filters with
      | [] => .ok child
      | _ =>
        match filtersLoopF gS gI q.filters
            (match child with | .arr xs => xs | _ => [child]) with
        | .error e => .error e
        | .ok result => .ok (.arr result)
  | _ => .error (.cantIndex q.render (typeName v))

/-- `query.Eval` for fixed field getters: evaluate the back-link first, then
the node body. -/
def Query.evalWith (gS : JValue → String → Except Err String)
    (gI : JValue → String → Except Err Int) : Query → JValue → Except Err JValue
  | .root o k fs, v => evalKeyStep gS gI (.root o k fs) v
  | .step l o k fs, v =>
    match Query.evalWith gS gI l v with
    | .error e => .error e
    | .ok v2 => evalKeyStep gS gI (.step l o k fs) v2

/-- `query.Eval` with fuel: a comparative's field lookup re-enters the
pipeline (`GetString`/`GetInt` on the candidate element) one fuel level
down.  Fuel never runs out from the entry points because each nested field
query is a strict substring of its parent query string. -/
def evalQueryFuel : Nat → Query → JValue → Except Err JValue
  | 0, q, v =>
    Query.evalWith (fun _ _ => .error .fuelOut) (fun _ _ => .error .fuelOut) q v
  | fuel + 1, q, v =>
    Query.evalWith
      (fun v2 s =>
        match parse s with
        | .error e => .error e
        | .ok qq =>
          match evalQueryFuel fuel qq v2 with
          | .error e => .error e
          | .ok r => toStringRes s r)
      (fun v2 s =>
        match parse s with
        | .error e => .error e
        | .ok qq =>
          match evalQueryFuel fuel qq v2 with
          | .error e => .error e
          | .ok r => toNumRes s r)
      q v

/-- The re-entrant `GetString` used by filter evaluation at a given fuel. -/
def getStringFuel (fuel : Nat) (v : JValue) (s : String) : Except Err String :=
  match parse s with
  | .error e => .error e
  | .ok qq =>
    match evalQueryFuel fuel qq v with
    | .error e => .error e
    | .ok r => toStringRes s r

/-- The re-entrant `GetInt` (= `int(GetNumber)`, identity on the `Int`
model) used by filter evaluation at a given fuel. -/
def getIntFuel (fuel : Nat) (v : JValue) (s : String) : Except Err Int :=
  match parse s with
  | .error e => .error e
  | .ok qq =>
    match evalQueryFuel fuel qq v with
    | .error e => .error e
    | .ok r => toNumRes s r

/-- Fuel budget of the entry points: nesting depth of re-entrant field
queries is bounded by the query length, since each level's query text is a
strict substring of its parent's. -/
def fuelOf (q : String) : Nat := q.length + 1

/-- `Get`: parse the query and evaluate it against the value. -/
def Get (v : JValue) (q : String) : Except Err JValue :=
  match parse q with
  | .error e => .error e
  | .ok qq => evalQueryFuel (fuelOf q) qq v

/-- `GetString`: `Get`, then the string dynamic-type switch. -/
def GetString (v : JValue) (q : String) : Except Err String :=
  match Get v q with
  | .error e => .error e
  | .ok r => toStringRes q r

/-- `GetNumber`: `Get`, then the number dynamic-type switch. -/
def GetNumber (v : JValue) (q : String) : Except Err Int :=
  match Get v q with
  | .error e => .error e
  | .ok r => toNumRes q r

/-- `GetInt`: `GetNumber` cast to `int` (identity in the `Int` model). -/
def GetInt (v : JValue) (q : String) : Except Err Int :=
  GetNumber v q

/-- `GetBool`: `Get`, then the boolean dynamic-type switch. -/
def GetBool (v : JValue) (q : String) : Except Err Bool :=
  match Get v q with
  | .error e => .error e
  | .ok r => toBoolRes q r

/-- The selection context: current selection plus the latched error. -/
structure Context where
  selection : List JValue
  err : Option Err

/-- `Ctx`: fresh context whose selection is the root value alone. -/
def Ctx (root : JValue) : Context := ⟨[root], none⟩

/-- The loop of `Context.Select`: evaluate the query against every selected
value, flattening sequence results; the first error aborts. -/
def selectLoop (q : String) : List JValue → Except Err (List JValue)
  | [] => .ok []
  | sel :: rest =>
    match Get sel q with
    | .error e => .error e
    | .ok value =>
      match selectLoop q rest with
      | .error e => .error e
      | .ok tail => .ok ((match value with | .arr xs => xs | _ => [value]) ++ tail)

/-- `Context.Select`: a no-op when an error is latched; otherwise run the
loop, latching its first error (selection unchanged) or installing the new
selection. -/
def Context.Select (ctx : Context) (q : String) : Context :=
  match ctx.err with
  | some _ => ctx
  | none =>
    match selectLoop q ctx.selection with
    | .error e => ⟨ctx.selection, some e⟩
    | .ok result => ⟨result, none⟩

/-- Kind of an extraction-target struct field: Go `string` fields are
supported; any other field kind is unsupported. -/
inductive FKind where
  | fString
  | fOther (ty : String)
deriving DecidableEq

/-- One struct field of an extraction target: the `jsonq` tag (empty when
absent), the field kind, and the current field value. -/
structure GoField where
  tag : String
  kind : FKind
  val : String
deriving DecidableEq

/-- The shapes `Extract`'s reflection dispatch distinguishes: an invalid
argument (nil or non-pointer), pointer-to-pointer, pointer-to-struct,
pointer-to-slice of structs, pointer-to-slice of struct pointers, slices of
other element kinds, and any other pointed type. -/
inductive Target where
  | invalid (ty : String)
  | toPtr
  | toStruct (fields : List GoField)
  | toSliceStruct (elems : List (List GoField)) (shape : List GoField)
  | toSlicePtr (elems : List (List GoField)) (shape : List GoField)
  | toSlicePtrBad (ty : String)
  | toSliceElemBad (ty : String)
  | toOther (ty : String)
deriving DecidableEq

/-- Zero value of a struct shape (Go `reflect.New`): string fields empty. -/
def zeroFields (shape : List GoField) : List GoField :=
  shape.map (fun f => ⟨f.tag, f.kind, ""⟩)

/-- `extractStruct`: populate each `jsonq`-tagged string field by
`GetString` on the tag against the selected element; the optional-missing
sentinel skips the field; any other error stops the loop (fields already
assigned keep their new values, matching in-place mutation). -/
def extractStruct (sel : JValue) : List GoField → List GoField × Option Err
  | [] => ([], none)
  | f :: fs =>
    if f.tag = "" then
      match extractStruct sel fs with
      | (rest, e) => (f :: rest, e)
    else
      match f.kind with
      | .fString =>
        match GetString sel f.tag with
        | .error e =>
          if e = .optionalMissing then
            match extractStruct sel fs with
            | (rest, e2) => (f :: rest, e2)
          else (f :: fs, some e)
        | .ok v =>
          match extractStruct sel fs with
          | (rest, e2) => (⟨f.tag, f.kind, v⟩ :: rest, e2)
      | .fOther ty => (f :: fs, some (.fieldNotSupported ty))

/-- Per-element record construction for slice targets: each selection
element builds one zeroed record via `extractStruct` (the recursive
`extract` on a fresh `reflect.New` struct pointer); the first error aborts
before anything is stored back. -/
def extractElems (shape : List GoField) : List JValue → List (List GoField) × Option Err
  | [] => ([], none)
  | sel :: rest =>
    match extractStruct sel (zeroFields shape) with
    | (_, some e) => ([], some e)
    | (fs, none) =>
      match extractElems shape rest with
      | (_, some e) => ([], some e)
      | (tail, none) => (fs :: tail, none)

/-- `extract`: the invalid-argument check, the empty-selection check, then
the dispatch on the pointed type.  Struct targets require exactly one
selected element; slice targets append one record per element (the slice is
written back only on success, so a failing slice extraction leaves the
target unchanged). -/
def extract (selection : List JValue) (t : Target) : Target × Option Err :=
  match t with
  | .invalid ty => (t, some (.extractInvalid ty))
  | _ =>
    if selection.length = 0 then (t, some .emptySelection)
    else
      match t with
      | .invalid ty => (t, some (.extractInvalid ty))
      | .toPtr => (t, some .ptrNotImpl)
      | .toStruct fields =>
        match selection with
        | [sel] =>
          match extractStruct sel fields with
          | (fs, e) => (.toStruct fs, e)
        | _ => (t, some .multipleResults)
      | .toSliceStruct elems shape =>
        match extractElems shape selection with
        | (_, some e) => (t, some e)
        | (newElems, none) => (.toSliceStruct (elems ++ newElems) shape, none)
      | .toSlicePtr elems shape =>
        match extractElems shape selection with
        | (_, some e) => (t, some e)
        | (newElems, none) => (.toSlicePtr (elems ++ newElems) shape, none)
      | .toSlicePtrBad ty => (t, some (.slicePtrInvalid ty))
      | .toSliceElemBad ty => (t, some (.sliceElemNotSupported ty))
      | .toOther ty => (t, some (.targetNotSupported ty))

/-- `Context.Extract`: re-surface the latched error without touching the
target; otherwise run `extract` on the current selection. -/
def Context.Extract (ctx : Context) (t : Target) : Target × Option Err :=
  match ctx.err with
  | some e => (t, some e)
  | none => extract ctx.selection t

/-- Refinement definition following the spec's words for single-record
extraction: an annotated field is populated by invoking the typed getter
with its path annotation against the selected element, and a field whose
getter reports optional-missing (or any error, which in a successful
extraction can only be the optional-missing sentinel) is left at its
current default value.  Compared below with `extractStruct` from the
source. -/
def specPopulateField (sel : JValue) (f : GoField) : GoField :=
  if f.tag = "" then f
  else
    match GetString sel f.tag with
    | .ok v => ⟨f.tag, f.kind, v⟩
    | .error _ => f

/-- Native integer comparison denotation used to state the comparative
claims: the direct numeric comparison named by the operator. -/
def cmpIntClaim : tokenType → Int → Int → Bool
  | .tLt, a, b => decide (a < b)
  | .tLe, a, b => decide (a ≤ b)
  | .tGt, a, b => decide (a > b)
  | .tGe, a, b => decide (a ≥ b)
  | _, _, _ => false

/-- Native lexicographic string comparison denotation used to state the
comparative claims: strict order `goStrLt` and its reflexive closure. -/
def cmpStrClaim : tokenType → String → String → Bool
  | .tLt, a, b => goStrLt a b
  | .tLe, a, b => goStrLt a b || decide (a = b)
  | .tGt, a, b => goStrLt b a
  | .tGe, a, b => goStrLt b a || decide (b = a)
  | _, _, _ => false

/-- A bare identifier: a letter followed by letters, digits or underscores
(the lexer's symbol form). -/
def validIdent (s : String) : Bool :=
  match s.data with
  | [] => false
  | c :: cs => isLetterC c && cs.all isIdentC

/-- A dotted path assembled from a list of keys. -/
def dottedPath : List String → String
  | [] => ""
  | [k] => k
  | k :: ks => k ++ "." ++ dottedPath ks

/-- Character form of the `.key` continuation of a dotted path. -/
def dotsChars : List String → List Char
  | [] => []
  | k :: ks => '.' :: k.data ++ dotsChars ks

/-- Reference resolution of a dotted path: walk the keys left to right,
requiring a mapping at every step.  `some v` exactly when every proper
prefix of the path resolves to a mapping and the final key is present. -/
def resolvePath : JValue → List String → Option JValue
  | v, [] => some v
  | .obj fields, k :: ks =>
    match lookupJ fields k with
    | some child => resolvePath child ks
    | none => none
  | _, _ :: _ => none

/-- The query chain the parser builds for a filter-free dotted path. -/
def chainOf (k : String) (ks : List String) : Query :=
  ks.foldl (fun q k2 => .step q false k2 []) (.root false k [])

theorem extractStruct_ok_map (sel : JValue) :
    ∀ (fields fields' : List GoField),
    extractStruct sel fields = (fields', none) →
    fields' = fields.map (specPopulateField sel) := by
  intro fields
  induction fields with
  | nil =>
    intro fields' h
    simp [extractStruct] at h
    simp [h]
  | cons f fs ih =>
    intro fields' h
    rcases hrec : extractStruct sel fs with ⟨rest, e⟩
    by_cases htag : f.tag = ""
    · simp [extractStruct, htag, hrec] at h
      rcases h with ⟨h1, h2⟩
      cases e with
      | none => subst h1; simp [specPopulateField, htag, ih rest hrec]
      | some e0 => simp at h2
    · cases hkind : f.kind with
      | fString =>
        cases hget : GetString sel f.tag with
        | error e0 =>
          by_cases hopt : e0 = Err.optionalMissing
          · simp [extractStruct, htag, hkind, hget, hopt, hrec] at h
            rcases h with ⟨h1, h2⟩
            cases e with
            | none =>
              subst h1
              simp [specPopulateField, htag, hget, ih rest hrec]
            | some e1 => simp at h2
          · simp [extractStruct, htag, hkind, hget, hopt, hrec] at h
        | ok v =>
          simp [extractStruct, htag, hkind, hget, hrec] at h
          rcases h with ⟨h1, h2⟩
          cases e with
          | none =>
            subst h1
            simp [specPopulateField, htag, hget, hkind, ih rest hrec]
          | some e1 => simp at h2
      | fOther ty =>
        simp [extractStruct, htag, hkind, hrec] at h

theorem evalQueryFuel_succ (fuel : Nat) (q : Query) (v : JValue) :
    evalQueryFuel (fuel + 1) q v =
      Query.evalWith (getStringFuel fuel) (getIntFuel fuel) q v := rfl

theorem runFilterF_filter (gS : JValue → String → Except Err String)
    (gI : JValue → String → Except Err Int) (f : QFilter) (p : JValue → Bool) :
    ∀ (xs : List JValue),
    (∀ e ∈ xs, ∀ i : Nat, QFilter.evalF gS gI f i e = .ok (p e)) →
    ∀ idx, runFilterF gS gI f idx xs = .ok (xs.filter p) := by
  intro xs
  induction xs with
  | nil => intro _ idx; rfl
  | cons a rest ih =>
    intro hx idx
    rw [runFilterF, hx a (by simp) idx, ih (fun e he i => hx e (by simp [he]) i) (idx + 1)]
    cases hp : p a <;> simp [hp, List.filter_cons]

theorem evalF_index_zero (gS : JValue → String → Except Err String)
    (gI : JValue → String → Except Err Int) (idx : Nat) (e : JValue) :
    QFilter.evalF gS gI (.comp (.int 0) .tInt none) idx e =
      .ok (decide ((idx : Int) = 0)) := by
  simp [QFilter.evalF, Atom.intVal]

theorem runFilterF_pos_empty (gS : JValue → String → Except Err String)
    (gI : JValue → String → Except Err Int) :
    ∀ (xs : List JValue) (idx : Nat), idx ≠ 0 →
    runFilterF gS gI (.comp (.int 0) .tInt none) idx xs = .ok [] := by
  intro xs
  induction xs with
  | nil => intro idx _; rfl
  | cons a rest ih =>
    intro idx hidx
    rw [runFilterF, evalF_index_zero, ih (idx + 1) (by omega)]
    have : ((idx : Int) = 0) = False := by
      simp only [eq_iff_iff, iff_false]
      omega
    simp [this]

theorem runFilterF_index_zero (gS : JValue → String → Except Err String)
    (gI : JValue → String → Except Err Int) (xs : List JValue) :
    runFilterF gS gI (.comp (.int 0) .tInt none) 0 xs = .ok (xs.take 1) := by
  cases xs with
  | nil => rfl
  | cons a rest =>
    rw [runFilterF, evalF_index_zero, runFilterF_pos_empty gS gI rest 1 (by omega)]
    simp

theorem filtersLoopF_cons (gS : JValue → String → Except Err String)
    (gI : JValue → String → Except Err Int) (f : QFilter) (fs : List QFilter)
    (items : List JValue) :
    filtersLoopF gS gI (f :: fs) items =
      match runFilterF gS gI f 0 items with
      | .error e => .error e
      | .ok filtered => filtersLoopF gS gI fs filtered := rfl

theorem eval_single_filter (fuel : Nat) (m : List (String × JValue)) (key : String)
    (S : List JValue) (f : QFilter) (p : JValue → Bool)
    (hk : lookupJ m key = some (.arr S))
    (hf : ∀ e ∈ S, ∀ i : Nat,
      QFilter.evalF (getStringFuel fuel) (getIntFuel fuel) f i e = .ok (p e)) :
    evalQueryFuel (fuel + 1) (.root false key [f]) (.obj m) = .ok (.arr (S.filter p)) := by
  rw [evalQueryFuel_succ]
  simp only [Query.evalWith, evalKeyStep, Query.key, Query.optFlag, Query.filters, hk]
  rw [filtersLoopF_cons, runFilterF_filter _ _ f p S hf 0]
  rfl

theorem eval_two_filter_idx0 (fuel : Nat) (m : List (String × JValue)) (key : String)
    (S : List JValue) (f : QFilter) (p : JValue → Bool)
    (hk : lookupJ m key = some (.arr S))
    (hf : ∀ e ∈ S, ∀ i : Nat,
      QFilter.evalF (getStringFuel fuel) (getIntFuel fuel) f i e = .ok (p e)) :
    evalQueryFuel (fuel + 1) (.root false key [f, .comp (.int 0) .tInt none]) (.obj m) =
      .ok (.arr ((S.filter p).take 1)) := by
  have h2 : filtersLoopF (getStringFuel fuel) (getIntFuel fuel)
      [.comp (.int 0) .tInt none] (S.filter p) = .ok ((S.filter p).take 1) := by
    rw [filtersLoopF_cons, runFilterF_index_zero]
    rfl
  rw [evalQueryFuel_succ]
  simp only [Query.evalWith, evalKeyStep, Query.key, Query.optFlag, Query.filters, hk]
  rw [filtersLoopF_cons, runFilterF_filter _ _ f p S hf 0]
  simp [h2]

/-- Claim C2: over a mapping whose `key` holds a sequence `S`, the query
`key[k=="x"]` evaluates to exactly the order-preserved subsequence of `S`
whose `k` field (read back through the re-entrant `GetString`) equals `x`,
and the query `key[k=="x"][0]` evaluates to the one-element sequence holding
the first survivor, or the empty sequence when none survived.  (The two
query ASTs are precisely what `parse` produces for such query strings; the
witness below checks one instance of that.) -/
theorem c2_filter_roundtrip (fuel : Nat) (m : List (String × JValue)) (key k x : String)
    (S : List JValue) (sval : JValue → String)
    (hk : lookupJ m key = some (.arr S))
    (hS : ∀ e ∈ S, getStringFuel fuel e k = .ok (sval e)) :
    evalQueryFuel (fuel + 1) (.root false key [.comp (.str k) .tEq (some (.str x))]) (.obj m)
      = .ok (.arr (S.filter (fun e => decide (sval e = x)))) ∧
    evalQueryFuel (fuel + 1)
        (.root false key [.comp (.str k) .tEq (some (.str x)), .comp (.int 0) .tInt none])
        (.obj m)
      = .ok (.arr ((S.filter (fun e => decide (sval e = x))).take 1)) := by
  have hf : ∀ e ∈ S, ∀ i : Nat,
      QFilter.evalF (getStringFuel fuel) (getIntFuel fuel)
        (.comp (.str k) .tEq (some (.str x))) i e = .ok (decide (sval e = x)) := by
    intro e he i
    simp [QFilter.evalF, atomGetString, hS e he]
  exact ⟨eval_single_filter fuel m key S _ _ hk hf,
    eval_two_filter_idx0 fuel m key S _ _ hk hf⟩

theorem c2_witness :
    (parse "items[k==\"x\"]" =
      .ok (.root false "items" [.comp (.str "k") .tEq (some (.str "x"))]) ∧
    parse "items[k==\"x\"][0]" =
      .ok (.root false "items"
        [.comp (.str "k") .tEq (some (.str "x")), .comp (.int 0) .tInt none]) ∧
    lookupJ [("items", JValue.arr
        [.obj [("k", .str "x")], .obj [("k", .str "y")], .obj [("k", .str "x")]])]
      "items" = some (.arr
        [.obj [("k", .str "x")], .obj [("k", .str "y")], .obj [("k", .str "x")]])) ∧
    evalQueryFuel 1 (.root false "items" [.comp (.str "k") .tEq (some (.str "x"))])
        (.obj [("items", .arr
          [.obj [("k", .str "x")], .obj [("k", .str "y")], .obj [("k", .str "x")]])])
      = .ok (.arr ([JValue.obj [("k", .str "x")], .obj [("k", .str "y")],
          .obj [("k", .str "x")]].filter
            (fun e => decide ((fun e => match e with
              | JValue.obj (("k", JValue.str s) :: _) => s
              | _ => "") e = "x")))) ∧
    evalQueryFuel 1
        (.root false "items"
          [.comp (.str "k") .tEq (some (.str "x")), .comp (.int 0) .tInt none])
        (.obj [("items", .arr
          [.obj [("k", .str "x")], .obj [("k", .str "y")], .obj [("k", .str "x")]])])
      = .ok (.arr (([JValue.obj [("k", .str "x")], .obj [("k", .str "y")],
          .obj [("k", .str "x")]].filter
            (fun e => decide ((fun e => match e with
              | JValue.obj (("k", JValue.str s) :: _) => s
              | _ => "") e = "x"))).take 1)) := by
  refine ⟨⟨rfl, rfl, rfl⟩, ?_⟩
  exact c2_filter_roundtrip 0
    [("items", .arr [.obj [("k", .str "x")], .obj [("k", .str "y")], .obj [("k", .str "x")]])]
    "items" "k" "x"
    [.obj [("k", .str "x")], .obj [("k", .str "y")], .obj [("k", .str "x")]]
    (fun e => match e with
      | JValue.obj (("k", JValue.str s) :: _) => s
      | _ => "")
    rfl
    (by intro e he; fin_cases he <;> rfl)

theorem ltCharList_flip : ∀ as bs : List Char,
    (!ltCharList as bs) = (ltCharList bs as || decide (bs = as)) := by
  intro as
  induction as with
  | nil =>
    intro bs
    cases bs with
    | nil => simp [ltCharList]
    | cons b bs => simp [ltCharList]
  | cons a as ih =>
    intro bs
    cases bs with
    | nil => simp [ltCharList]
    | cons b bs =>
      by_cases hab : a = b
      · subst hab
        have hd : decide ((a :: bs) = (a :: as)) = (decide (a = a) && decide (bs = as)) := by
          by_cases h2 : bs = as <;> simp [h2]
        simp only [ltCharList, if_pos rfl, hd]
        simp [ih bs]
      · have hd : decide ((b :: bs) = (a :: as)) = false := by
          simp [hab]
          intro h
          exact absurd h.symm hab
        have hba : ¬ b = a := fun h => hab h.symm
        simp only [ltCharList, if_neg hab, if_neg hba, hd, Bool.or_false]
        rw [← decide_not, decide_eq_decide]
        constructor
        · intro h2
          rcases lt_trichotomy a b with h3 | h3 | h3
          · exact absurd h3 h2
          · exact absurd h3 hab
          · exact h3
        · intro h2 h3
          exact absurd (lt_trans h2 h3) (lt_irrefl b)

theorem goStrLt_flip (a b : String) :
    (!goStrLt a b) = (goStrLt b a || decide (b = a)) := by
  rw [goStrLt, goStrLt, ltCharList_flip]
  congr 1
  rw [decide_eq_decide]
  constructor
  · intro h
    cases b
    cases a
    simp at h
    simp [h]
  · intro h
    rw [h]

theorem evalF_cmp_int (gS : JValue → String → Except Err String)
    (gI : JValue → String → Except Err Int) (k : String) (n : Int) (op : tokenType)
    (hop : op ∈ ([.tLt, .tLe, .tGt, .tGe] : List tokenType)) (i : Nat) (e : JValue)
    (z : Int) (h : gI e k = .ok z) :
    QFilter.evalF gS gI (.comp (.str k) op (some (.int n))) i e =
      .ok (cmpIntClaim op z n) := by
  fin_cases hop <;> simp [QFilter.evalF, atomGetString, h, cmpIntClaim]

theorem evalF_cmp_str (gS : JValue → String → Except Err String)
    (gI : JValue → String → Except Err Int) (k : String) (x : String) (op : tokenType)
    (hop : op ∈ ([.tLt, .tLe, .tGt, .tGe] : List tokenType)) (i : Nat) (e : JValue)
    (s : String) (h : gS e k = .ok s) :
    QFilter.evalF gS gI (.comp (.str k) op (some (.str x))) i e =
      .ok (cmpStrClaim op s x) := by
  fin_cases hop <;>
    simp only [QFilter.evalF, atomGetString, h, cmpStrClaim] <;>
    first
    | rfl
    | rw [goStrLt_flip]

/-- Claim C8: over a sequence of mappings whose field `k` holds an integer
number, each comparative filter `[k<n]`, `[k<=n]`, `[k>n]`, `[k>=n]` retains
exactly the elements whose field value satisfies the corresponding native
numeric comparison with the literal, in original order; and when the field
holds a string and the literal is a string, the same holds under
lexicographic comparison (`cmpIntClaim` / `cmpStrClaim` state the native
comparisons). -/
theorem c8_comparative_order (fuel : Nat) (m : List (String × JValue)) (key k : String)
    (S : List JValue) (op : tokenType)
    (hop : op ∈ ([.tLt, .tLe, .tGt, .tGe] : List tokenType))
    (hk : lookupJ m key = some (.arr S)) :
    (∀ (n : Int) (ival : JValue → Int),
      (∀ e ∈ S, getIntFuel fuel e k = .ok (ival e)) →
      evalQueryFuel (fuel + 1) (.root false key [.comp (.str k) op (some (.int n))]) (.obj m)
        = .ok (.arr (S.filter (fun e => cmpIntClaim op (ival e) n)))) ∧
    (∀ (x : String) (sval : JValue → String),
      (∀ e ∈ S, getStringFuel fuel e k = .ok (sval e)) →
      evalQueryFuel (fuel + 1) (.root false key [.comp (.str k) op (some (.str x))]) (.obj m)
        = .ok (.arr (S.filter (fun e => cmpStrClaim op (sval e) x)))) := by
  constructor
  · intro n ival hS
    exact eval_single_filter fuel m key S _ _ hk
      (fun e he i => evalF_cmp_int _ _ k n op hop i e (ival e) (hS e he))
  · intro x sval hS
    exact eval_single_filter fuel m key S _ _ hk
      (fun e he i => evalF_cmp_str _ _ k x op hop i e (sval e) (hS e he))

theorem c8_witness :
    ((.tLt : tokenType) ∈ ([.tLt, .tLe, .tGt, .tGe] : List tokenType) ∧
    lookupJ [("items", JValue.arr [.obj [("p", .num 100)], .obj [("p", .num 10)]])] "items"
      = some (.arr [.obj [("p", .num 100)], .obj [("p", .num 10)]])) ∧
    evalQueryFuel 1 (.root false "items" [.comp (.str "p") .tLt (some (.int 100))])
        (.obj [("items", .arr [.obj [("p", .num 100)], .obj [("p", .num 10)]])])
      = .ok (.arr ([JValue.obj [("p", .num 100)], .obj [("p", .num 10)]].filter
          (fun e => cmpIntClaim .tLt ((fun e => match e with
            | JValue.obj (("p", JValue.num n) :: _) => n
            | _ => 0) e) 100))) ∧
    evalQueryFuel 1 (.root false "items" [.comp (.str "q") .tLt (some (.str "m"))])
        (.obj [("items", .arr [.obj [("q", .str "a")], .obj [("q", .str "z")]])])
      = .ok (.arr ([JValue.obj [("q", .str "a")], .obj [("q", .str "z")]].filter
          (fun e => cmpStrClaim .tLt ((fun e => match e with
            | JValue.obj (("q", JValue.str s) :: _) => s
            | _ => "") e) "m"))) := by
  refine ⟨⟨by decide, rfl⟩, ?_, ?_⟩
  · exact (c8_comparative_order 0
      [("items", .arr [.obj [("p", .num 100)], .obj [("p", .num 10)]])] "items" "p"
      [.obj [("p", .num 100)], .obj [("p", .num 10)]] .tLt (by decide) rfl).1 100
      (fun e => match e with
        | JValue.obj (("p", JValue.num n) :: _) => n
        | _ => 0)
      (by intro e he; fin_cases he <;> rfl)
  · exact (c8_comparative_order 0
      [("items", .arr [.obj [("q", .str "a")], .obj [("q", .str "z")]])] "items" "q"
      [.obj [("q", .str "a")], .obj [("q", .str "z")]] .tLt (by decide) rfl).2 "m"
      (fun e => match e with
        | JValue.obj (("q", JValue.str s) :: _) => s
        | _ => "")
      (by intro e he; fin_cases he <;> rfl)

/-- Claim C6: once an error has latched in a context, `Select` returns the
context with both its selection and its error unchanged, and `Extract`
returns the latched error without modifying the extraction target. -/
theorem c6_latched_noop (ctx : Context) (e : Err) (q : String) (t : Target)
    (h : ctx.err = some e) :
    ctx.Select q = ctx ∧ ctx.Extract t = (t, some e) := by
  obtain ⟨sels, err⟩ := ctx
  simp only [Context.err] at h
  subst h
  exact ⟨rfl, rfl⟩

theorem c6_witness :
    (⟨[JValue.null], some Err.eofE⟩ : Context).err = some Err.eofE ∧
      ((⟨[JValue.null], some Err.eofE⟩ : Context).Select "a" =
        ⟨[JValue.null], some Err.eofE⟩ ∧
      (⟨[JValue.null], some Err.eofE⟩ : Context).Extract (.toStruct []) =
        (.toStruct [], some Err.eofE)) :=
  ⟨rfl, c6_latched_noop ⟨[JValue.null], some Err.eofE⟩ Err.eofE "a" (.toStruct []) rfl⟩

/-- Claim C9: when `Select` on an error-free context fails while evaluating
the query against some selected element, the partially built new selection
is discarded: the context keeps exactly its previous selection and only the
error field changes. -/
theorem c9_select_failure_preserves (sels : List JValue) (q : String) (e : Err)
    (h : (Context.Select ⟨sels, none⟩ q).err = some e) :
    (Context.Select ⟨sels, none⟩ q).selection = sels := by
  unfold Context.Select at *
  cases hl : selectLoop q sels with
  | error e0 => rfl
  | ok res => rw [hl] at h; simp at h

theorem c9_witness :
    (Context.Select ⟨[JValue.null], none⟩ "a").err = some (.cantIndex "\"a\"" "<nil>") ∧
      (Context.Select ⟨[JValue.null], none⟩ "a").selection = [JValue.null] :=
  ⟨rfl, c9_select_failure_preserves [JValue.null] "a" (.cantIndex "\"a\"" "<nil>") rfl⟩

/-- Claim C7: extraction from an error-free context into a pointer-to-struct
target fails with the multiple-results error when more than one element is
selected, fails with the empty-selection error when the selection is empty,
and with exactly one selected element populates each `jsonq`-annotated
string field by `GetString` on the field's path annotation against that
element, leaving fields whose getter reports the optional-missing sentinel
at their default values (`specPopulateField` states the spec's per-field
rule). -/
theorem c7_extract_struct (sels : List JValue) (fields : List GoField) :
    (2 ≤ sels.length →
      Context.Extract ⟨sels, none⟩ (.toStruct fields) =
        (.toStruct fields, some .multipleResults)) ∧
    (sels = [] →
      Context.Extract ⟨sels, none⟩ (.toStruct fields) =
        (.toStruct fields, some .emptySelection)) ∧
    (∀ (sel : JValue) (fields' : List GoField), sels = [sel] →
      extractStruct sel fields = (fields', none) →
      Context.Extract ⟨sels, none⟩ (.toStruct fields) = (.toStruct fields', none) ∧
      fields' = fields.map (specPopulateField sel)) := by
  refine ⟨?_, ?_, ?_⟩
  · intro h2
    match sels, h2 with
    | s1 :: s2 :: rest, _ =>
      simp [Context.Extract, extract]
  · intro h0
    subst h0
    rfl
  · intro sel fields' hsel hex
    subst hsel
    constructor
    · simp [Context.Extract, extract, hex]
    · exact extractStruct_ok_map sel fields fields' hex

theorem c7_witness :
    (2 ≤ ([JValue.null, JValue.null] : List JValue).length ∧
      Context.Extract ⟨[JValue.null, JValue.null], none⟩
          (.toStruct [⟨"a", .fString, ""⟩]) =
        (.toStruct [⟨"a", .fString, ""⟩], some .multipleResults)) ∧
    (Context.Extract ⟨([] : List JValue), none⟩ (.toStruct [⟨"a", .fString, ""⟩]) =
      (.toStruct [⟨"a", .fString, ""⟩], some .emptySelection)) ∧
    (extractStruct (.obj [("a", .str "v")])
        [⟨"a", .fString, ""⟩, ⟨"", .fString, "keep"⟩, ⟨"?zz", .fString, "dflt"⟩] =
      ([⟨"a", .fString, "v"⟩, ⟨"", .fString, "keep"⟩, ⟨"?zz", .fString, "dflt"⟩], none) ∧
      Context.Extract ⟨[.obj [("a", .str "v")]], none⟩
          (.toStruct [⟨"a", .fString, ""⟩, ⟨"", .fString, "keep"⟩, ⟨"?zz", .fString, "dflt"⟩]) =
        (.toStruct [⟨"a", .fString, "v"⟩, ⟨"", .fString, "keep"⟩, ⟨"?zz", .fString, "dflt"⟩],
          none) ∧
      [⟨"a", .fString, "v"⟩, ⟨"", .fString, "keep"⟩, ⟨"?zz", .fString, "dflt"⟩] =
        [(⟨"a", .fString, ""⟩ : GoField), ⟨"", .fString, "keep"⟩, ⟨"?zz", .fString, "dflt"⟩].map
          (specPopulateField (.obj [("a", .str "v")])) ) := by
  refine ⟨⟨by decide, ?_⟩, ?_, ?_, ?_⟩
  · exact (c7_extract_struct [JValue.null, JValue.null] [⟨"a", .fString, ""⟩]).1 (by decide)
  · exact (c7_extract_struct [] [⟨"a", .fString, ""⟩]).2.1 rfl
  · rfl
  · exact (c7_extract_struct [.obj [("a", .str "v")]]
      [⟨"a", .fString, ""⟩, ⟨"", .fString, "keep"⟩, ⟨"?zz", .fString, "dflt"⟩]).2.2
      (.obj [("a", .str "v")])
      [⟨"a", .fString, "v"⟩, ⟨"", .fString, "keep"⟩, ⟨"?zz", .fString, "dflt"⟩] rfl rfl

theorem evalKeyStep_filters_arr (gS : JValue → String → Except Err String)
    (gI : JValue → String → Except Err Int) (q : Query) (v r : JValue)
    (hf : q.filters ≠ []) (h : evalKeyStep gS gI q v = .ok r) :
    ∃ xs, r = .arr xs := by
  cases v with
  | obj fields =>
    cases hl : lookupJ fields q.key with
    | none =>
      simp only [evalKeyStep, hl] at h
      cases hopt : q.optFlag <;> simp [hopt] at h
    | some child =>
      cases hfs : q.filters with
      | nil => exact absurd hfs hf
      | cons f fs =>
        simp only [evalKeyStep, hl, hfs] at h
        generalize (match child with | JValue.arr xs => xs | _ => [child]) = items at h
        cases hres : filtersLoopF gS gI (f :: fs) items with
        | error e => rw [hres] at h; simp at h
        | ok res =>
          rw [hres] at h
          simp at h
          exact ⟨res, h.symm⟩
  | null => simp [evalKeyStep] at h
  | bool b => simp [evalKeyStep] at h
  | num n => simp [evalKeyStep] at h
  | str s => simp [evalKeyStep] at h
  | arr xs => simp [evalKeyStep] at h

theorem evalWith_filters_arr (gS : JValue → String → Except Err String)
    (gI : JValue → String → Except Err Int) (q : Query) (v r : JValue)
    (hf : q.filters ≠ []) (h : Query.evalWith gS gI q v = .ok r) :
    ∃ xs, r = .arr xs := by
  cases q with
  | root o k fs => exact evalKeyStep_filters_arr gS gI (.root o k fs) v r hf h
  | step l o k fs =>
    simp only [Query.evalWith] at h
    cases hl : Query.evalWith gS gI l v with
    | error e => rw [hl] at h; simp at h
    | ok v2 =>
      rw [hl] at h
      exact evalKeyStep_filters_arr gS gI (.step l o k fs) v2 r hf h

theorem evalQueryFuel_filters_arr (fuel : Nat) (q : Query) (v r : JValue)
    (hf : q.filters ≠ []) (h : evalQueryFuel fuel q v = .ok r) :
    ∃ xs, r = .arr xs := by
  cases fuel with
  | zero => exact evalWith_filters_arr _ _ q v r hf h
  | succ f =>
    rw [evalQueryFuel_succ] at h
    exact evalWith_filters_arr _ _ q v r hf h

/-- Claim C5 (amended): a typed-getter call on a path that carries filters
never resolves to a value of the requested type: a filtered evaluation
always yields a sequence (even when exactly one element survives), and each
typed getter then fails with its type-mismatch error naming the path and the
sequence's dynamic type.  The unwrap-a-single-survivor behavior the original
claim describes does not exist in this revision. -/
theorem c5_filtered_getter_errors (v : JValue) (q : String) (qq : Query) (r : JValue)
    (hp : parse q = .ok qq) (hf : qq.filters ≠ []) (hg : Get v q = .ok r) :
    (∃ xs, r = .arr xs) ∧
    GetString v q = .error (.notString q (typeName r)) ∧
    GetNumber v q = .error (.notFloat q (typeName r)) ∧
    GetInt v q = .error (.notFloat q (typeName r)) ∧
    GetBool v q = .error (.notBool q (typeName r)) := by
  have harr : ∃ xs, r = .arr xs := by
    unfold Get at hg
    rw [hp] at hg
    exact evalQueryFuel_filters_arr (fuelOf q) qq v r hf hg
  obtain ⟨xs, rfl⟩ := harr
  refine ⟨⟨xs, rfl⟩, ?_, ?_, ?_, ?_⟩
  · unfold GetString
    rw [hg]
    rfl
  · unfold GetNumber
    rw [hg]
    rfl
  · unfold GetInt GetNumber
    rw [hg]
    rfl
  · unfold GetBool
    rw [hg]
    rfl

/-- Counterexample to claim C5 as stated: on `{"items": ["a"]}` the filtered
path `items[0]` leaves exactly one surviving element `"a"`, yet `GetString`
does not resolve to it; it fails with the sequence type-mismatch error. -/
theorem c5_counterexample :
    Get (.obj [("items", .arr [.str "a"])]) "items[0]" = .ok (.arr [.str "a"]) ∧
    GetString (.obj [("items", .arr [.str "a"])]) "items[0]" =
      .error (.notString "items[0]" "[]interface \x7b\x7d") ∧
    GetString (.obj [("items", .arr [.str "a"])]) "items[0]" ≠ .ok "a" := by
  refine ⟨rfl, rfl, ?_⟩
  decide

theorem c5_witness :
    (parse "items[0]" = .ok (.root false "items" [.comp (.int 0) .tInt none]) ∧
    (Query.root false "items" [.comp (.int 0) .tInt none]).filters ≠ [] ∧
    Get (.obj [("items", .arr [.str "a"])]) "items[0]" = .ok (.arr [.str "a"])) ∧
    ((∃ xs, (JValue.arr [.str "a"]) = .arr xs) ∧
    GetString (.obj [("items", .arr [.str "a"])]) "items[0]" =
      .error (.notString "items[0]" (typeName (.arr [.str "a"]))) ∧
    GetNumber (.obj [("items", .arr [.str "a"])]) "items[0]" =
      .error (.notFloat "items[0]" (typeName (.arr [.str "a"]))) ∧
    GetInt (.obj [("items", .arr [.str "a"])]) "items[0]" =
      .error (.notFloat "items[0]" (typeName (.arr [.str "a"]))) ∧
    GetBool (.obj [("items", .arr [.str "a"])]) "items[0]" =
      .error (.notBool "items[0]" (typeName (.arr [.str "a"])))) :=
  ⟨⟨rfl, by decide, rfl⟩,
    c5_filtered_getter_errors (.obj [("items", .arr [.str "a"])]) "items[0]"
      (.root false "items" [.comp (.int 0) .tInt none]) (.arr [.str "a"])
      rfl (by decide) rfl⟩

theorem scanSplit (p : Char → Bool) :
    ∀ (xs ys : List Char), xs.all p = true →
    (∀ y yt, ys = y :: yt → p y = false) →
    (xs ++ ys).takeWhile p = xs ∧ (xs ++ ys).dropWhile p = ys := by
  intro xs
  induction xs with
  | nil =>
    intro ys _ hys
    cases ys with
    | nil => exact ⟨rfl, rfl⟩
    | cons y yt =>
      have hy := hys y yt rfl
      simp [List.takeWhile_cons, List.dropWhile_cons, hy]
  | cons x xs ih =>
    intro ys hall hys
    simp only [List.all_cons, Bool.and_eq_true] at hall
    have h2 := ih ys hall.2 hys
    simp [List.takeWhile_cons, List.dropWhile_cons, hall.1, h2.1, h2.2]

theorem symLoop_eq : ∀ (cs acc : List Char),
    symLoop acc cs = (acc ++ cs.takeWhile isIdentC, cs.dropWhile isIdentC) := by
  intro cs
  induction cs with
  | nil => intro acc; simp [symLoop]
  | cons c cs ih =>
    intro acc
    cases h : isIdentC c with
    | true => simp [symLoop, h, ih, List.takeWhile_cons, List.dropWhile_cons]
    | false => simp [symLoop, h, List.takeWhile_cons, List.dropWhile_cons]

theorem numLoop_eq : ∀ (cs acc : List Char),
    numLoop acc cs = (acc ++ cs.takeWhile isDigitC, cs.dropWhile isDigitC) := by
  intro cs
  induction cs with
  | nil => intro acc; simp [numLoop]
  | cons c cs ih =>
    intro acc
    cases h : isDigitC c with
    | true => simp [numLoop, h, ih, List.takeWhile_cons, List.dropWhile_cons]
    | false => simp [numLoop, h, List.takeWhile_cons, List.dropWhile_cons]

theorem strLoop_eq : ∀ (s acc rest : List Char), (∀ ch ∈ s, ¬ ch = '"') →
    strLoop acc (s ++ '"' :: rest) = some (acc ++ s, rest) := by
  intro s
  induction s with
  | nil => intro acc rest _; simp [strLoop]
  | cons c s ih =>
    intro acc rest h
    have hc : ¬ c = '"' := h c (by simp)
    have ih2 := ih (acc ++ [c]) rest (fun ch hch => h ch (by simp [hch]))
    simp only [List.cons_append, strLoop, if_neg hc]
    simpa [List.append_assoc] using ih2

theorem isLetterC_notSpecial (c : Char) (h : isLetterC c = true) :
    ¬ c = '.' ∧ ¬ c = '[' ∧ ¬ c = ']' ∧ ¬ c = '?' ∧ ¬ c = '&' ∧ ¬ c = '|' ∧
      ¬ c = '=' ∧ ¬ c = '!' ∧ ¬ c = '<' ∧ ¬ c = '>' ∧ ¬ c = '"' := by
  refine ⟨?_, ?_, ?_, ?_, ?_, ?_, ?_, ?_, ?_, ?_, ?_⟩ <;> (rintro rfl; revert h; decide)

theorem lexGet_ident (c : Char) (cs : List Char) (h : isLetterC c = true) :
    lexGet (c :: cs) =
      .tok ⟨.tString, String.mk (c :: cs.takeWhile isIdentC), 0⟩ (cs.dropWhile isIdentC) := by
  obtain ⟨h1, h2, h3, h4, h5, h6, h7, h8, h9, h10, h11⟩ := isLetterC_notSpecial c h
  simp only [lexGet, if_neg h1, if_neg h2, if_neg h3, if_neg h4, if_neg h5, if_neg h6,
    if_neg h7, if_neg h8, if_neg h9, if_neg h10, if_neg h11, if_pos h]
  rw [symLoop_eq]
  rfl

theorem lexGet_key (k : String) (tail : List Char) (hk : validIdent k = true)
    (htail : ∀ y yt, tail = y :: yt → isIdentC y = false) :
    lexGet (k.data ++ tail) = .tok ⟨.tString, k, 0⟩ tail := by
  obtain ⟨d⟩ := k
  cases d with
  | nil => simp [validIdent] at hk
  | cons c cs =>
    simp only [validIdent, Bool.and_eq_true] at hk
    have hsplit := scanSplit isIdentC cs tail hk.2 htail
    show lexGet (c :: (cs ++ tail)) = _
    rw [lexGet_ident c (cs ++ tail) hk.1, hsplit.1, hsplit.2]

theorem lexGet_key_nil (k : String) (hk : validIdent k = true) :
    lexGet k.data = .tok ⟨.tString, k, 0⟩ [] := by
  have h := lexGet_key k [] hk (by intro y yt hy; simp at hy)
  rw [List.append_nil] at h
  exact h

theorem lexGet_dot (cs : List Char) : lexGet ('.' :: cs) = .tok ⟨.tDot, "", 0⟩ cs := rfl

theorem lexGet_lb (cs : List Char) : lexGet ('[' :: cs) = .tok ⟨.tLBracket, "", 0⟩ cs := rfl

theorem lexGet_rb (cs : List Char) : lexGet (']' :: cs) = .tok ⟨.tRBracket, "", 0⟩ cs := rfl

theorem lexGet_qm (cs : List Char) : lexGet ('?' :: cs) = .tok ⟨.tQuestionMark, "", 0⟩ cs := rfl

theorem lexGet_and (cs : List Char) : lexGet ('&' :: '&' :: cs) = .tok ⟨.tAnd, "", 0⟩ cs := rfl

theorem lexGet_or (cs : List Char) : lexGet ('|' :: '|' :: cs) = .tok ⟨.tOr, "", 0⟩ cs := rfl

theorem lexGet_eq2 (cs : List Char) : lexGet ('=' :: '=' :: cs) = .tok ⟨.tEq, "", 0⟩ cs := rfl

theorem lexGet_neq (cs : List Char) : lexGet ('!' :: '=' :: cs) = .tok ⟨.tNeq, "", 0⟩ cs := rfl

theorem lexGet_le (cs : List Char) : lexGet ('<' :: '=' :: cs) = .tok ⟨.tLe, "", 0⟩ cs := rfl

theorem lexGet_ge (cs : List Char) : lexGet ('>' :: '=' :: cs) = .tok ⟨.tGe, "", 0⟩ cs := rfl

theorem lexGet_lt (d : Char) (cs : List Char) (hd : ¬ d = '=') :
    lexGet ('<' :: d :: cs) = .tok ⟨.tLt, "", 0⟩ (d :: cs) := by
  simp [lexGet, hd]

theorem lexGet_gt (d : Char) (cs : List Char) (hd : ¬ d = '=') :
    lexGet ('>' :: d :: cs) = .tok ⟨.tGt, "", 0⟩ (d :: cs) := by
  simp [lexGet, hd]

theorem lexGet_quoted (s rest : List Char) (h : ∀ ch ∈ s, ¬ ch = '"') :
    lexGet ('"' :: (s ++ '"' :: rest)) = .tok ⟨.tString, String.mk s, 0⟩ rest := by
  show (match strLoop [] (s ++ '"' :: rest) with
    | some (str, r2) => LexOut.tok ⟨.tString, String.mk str, 0⟩ r2
    | none => LexOut.eof) = _
  rw [strLoop_eq s [] rest h]
  rfl

theorem isDigitC_notSpecial (c : Char) (h : isDigitC c = true) :
    ¬ c = '.' ∧ ¬ c = '[' ∧ ¬ c = ']' ∧ ¬ c = '?' ∧ ¬ c = '&' ∧ ¬ c = '|' ∧
      ¬ c = '=' ∧ ¬ c = '!' ∧ ¬ c = '<' ∧ ¬ c = '>' ∧ ¬ c = '"' := by
  refine ⟨?_, ?_, ?_, ?_, ?_, ?_, ?_, ?_, ?_, ?_, ?_⟩ <;> (rintro rfl; revert h; decide)

theorem isDigitC_notLetter (c : Char) (h : isDigitC c = true) : isLetterC c = false := by
  unfold isDigitC Char.isDigit at h
  simp only [Bool.and_eq_true, decide_eq_true_eq, Char.le_def] at h
  have h9 : c.val.toNat ≤ 57 := by
    have h2 : c.val.toNat ≤ (57 : UInt32).toNat := h.2
    simpa using h2
  have hA : ¬ (c.val ≥ 65) := by
    change ¬ ((65 : UInt32).toNat ≤ c.val.toNat)
    have h65 : (65 : UInt32).toNat = 65 := rfl
    omega
  have ha : ¬ (c.val ≥ 97) := by
    change ¬ ((97 : UInt32).toNat ≤ c.val.toNat)
    have h97 : (97 : UInt32).toNat = 97 := rfl
    omega
  have hu : c.isUpper = false := by
    unfold Char.isUpper
    rw [decide_eq_false hA, Bool.false_and]
  have hlo : c.isLower = false := by
    unfold Char.isLower
    rw [decide_eq_false ha, Bool.false_and]
  unfold isLetterC Char.isAlpha
  rw [hu, hlo]
  rfl

theorem lexGet_num (c : Char) (cs : List Char) (hd : isDigitC c = true) :
    lexGet (c :: cs) =
      (match atoi (c :: cs.takeWhile isDigitC) with
       | .ok n => .tok ⟨.tInt, "", n⟩ (cs.dropWhile isDigitC)
       | .error e => .fail e) := by
  obtain ⟨h1, h2, h3, h4, h5, h6, h7, h8, h9, h10, h11⟩ := isDigitC_notSpecial c hd
  have hl : isLetterC c = false := isDigitC_notLetter c hd
  simp only [lexGet, if_neg h1, if_neg h2, if_neg h3, if_neg h4, if_neg h5, if_neg h6,
    if_neg h7, if_neg h8, if_neg h9, if_neg h10, if_neg h11, hl, Bool.false_eq_true,
    if_false, if_pos hd]
  rw [numLoop_eq]
  rfl

theorem dotsChars_stop (ks : List String) :
    ∀ y yt, dotsChars ks = y :: yt → isIdentC y = false := by
  intro y yt h
  cases ks with
  | nil => simp [dotsChars] at h
  | cons k2 ks =>
    simp only [dotsChars] at h
    injection h with h1 _
    rw [← h1]
    decide

theorem dottedPath_data : ∀ (ks : List String) (k : String),
    (dottedPath (k :: ks)).data = k.data ++ dotsChars ks := by
  intro ks
  induction ks with
  | nil => intro k; simp [dottedPath, dotsChars]
  | cons k2 ks ih =>
    intro k
    show (k ++ "." ++ dottedPath (k2 :: ks)).data = _
    rw [String.data_append, String.data_append, ih k2]
    simp [dotsChars]

theorem dotsChars_len (ks : List String) : ks.length ≤ (dotsChars ks).length := by
  induction ks with
  | nil => simp [dotsChars]
  | cons k ks ih =>
    simp only [dotsChars, List.length_cons, List.length_append]
    omega

theorem parseDotsLoop_nil (fuel : Nat) (q : Query) :
    parseDotsLoop (fuel + 1) q ⟨[], none⟩ = .ok (q, ⟨[], none⟩) := rfl

theorem parseFiltersLoop_eof (fuel : Nat) (q : Query) :
    parseFiltersLoop (fuel + 1) q ⟨[], none⟩ = .ok q := rfl

theorem parseDotsLoop_ok : ∀ (ks : List String) (fuel : Nat) (q : Query),
    (∀ k2 ∈ ks, validIdent k2 = true) → ks.length < fuel →
    parseDotsLoop fuel q ⟨dotsChars ks, none⟩ =
      .ok (ks.foldl (fun q2 k2 => .step q2 false k2 []) q, ⟨[], none⟩) := by
  intro ks
  induction ks with
  | nil =>
    intro fuel q _ hfuel
    cases fuel with
    | zero => omega
    | succ f => exact parseDotsLoop_nil f q
  | cons k ks ih =>
    intro fuel q hval hfuel
    cases fuel with
    | zero => simp at hfuel
    | succ f =>
      have hk : validIdent k = true := hval k (by simp)
      have hkey : lexGet (k.data ++ dotsChars ks) = .tok ⟨.tString, k, 0⟩ (dotsChars ks) :=
        lexGet_key k (dotsChars ks) hk (dotsChars_stop ks)
      have hp1 : pget ⟨dotsChars (k :: ks), none⟩ =
          (.t ⟨.tDot, "", 0⟩, ⟨k.data ++ dotsChars ks, none⟩) := by
        show pget ⟨'.' :: (k.data ++ dotsChars ks), none⟩ = _
        simp only [pget]
        rw [lexGet_dot]
      have hp2 : pget ⟨k.data ++ dotsChars ks, none⟩ =
          (.t ⟨.tString, k, 0⟩, ⟨dotsChars ks, none⟩) := by
        simp only [pget]
        rw [hkey]
      simp only [parseDotsLoop, hp1, hp2]
      rw [ih f (.step q false k []) (fun k2 hk2 => hval k2 (by simp [hk2]))
        (by simp only [List.length_cons] at hfuel; omega)]
      rfl

theorem parseQuery_path (f : Nat) (k : String) (ks : List String)
    (hk : validIdent k = true) (hks : ∀ k2 ∈ ks, validIdent k2 = true)
    (hfuel : ks.length < f + 1) :
    parseQuery (f + 1) ⟨k.data ++ dotsChars ks, none⟩ = .ok (chainOf k ks) := by
  have hkey : lexGet (k.data ++ dotsChars ks) = .tok ⟨.tString, k, 0⟩ (dotsChars ks) :=
    lexGet_key k (dotsChars ks) hk (dotsChars_stop ks)
  have hp : pget ⟨k.data ++ dotsChars ks, none⟩ =
      (.t ⟨.tString, k, 0⟩, ⟨dotsChars ks, none⟩) := by
    simp only [pget]
    rw [hkey]
  simp only [parseQuery, hp]
  simp only [parseQueryBody]
  rw [parseDotsLoop_ok ks (f + 1) (.root false k []) hks hfuel]
  exact parseFiltersLoop_eof f (chainOf k ks)

theorem parse_dotted (k : String) (ks : List String)
    (hk : validIdent k = true) (hks : ∀ k2 ∈ ks, validIdent k2 = true) :
    parse (dottedPath (k :: ks)) = .ok (chainOf k ks) := by
  unfold parse
  have hdata : (dottedPath (k :: ks)).data = k.data ++ dotsChars ks := dottedPath_data ks k
  have hlen : (dottedPath (k :: ks)).length = k.data.length + (dotsChars ks).length := by
    show (dottedPath (k :: ks)).data.length = _
    rw [hdata, List.length_append]
  have hfuel : ks.length < (dottedPath (k :: ks)).length + 2 := by
    have := dotsChars_len ks
    omega
  rw [hdata]
  exact parseQuery_path ((dottedPath (k :: ks)).length + 1) k ks hk hks (by omega)

theorem parse_single_key (k : String) (hk : validIdent k = true) :
    parse k = .ok (.root false k []) := by
  unfold parse
  have h0 : k.data = k.data ++ dotsChars [] := by simp [dotsChars]
  rw [h0]
  exact parseQuery_path (k.length + 1) k [] hk (by simp)
    (by simp only [List.length_nil]; omega)

theorem parse_opt_key (key : String) (hk : validIdent key = true) :
    parse ("?" ++ key) = .ok (.root true key []) := by
  unfold parse
  have hdata : ("?" ++ key).data = '?' :: (key.data ++ dotsChars []) := by
    rw [String.data_append]
    simp [dotsChars]
  rw [hdata]
  have hkey : lexGet (key.data ++ dotsChars []) = .tok ⟨.tString, key, 0⟩ (dotsChars []) :=
    lexGet_key key (dotsChars []) hk (dotsChars_stop [])
  have hp1 : pget ⟨'?' :: (key.data ++ dotsChars []), none⟩ =
      (.t ⟨.tQuestionMark, "", 0⟩, ⟨key.data ++ dotsChars [], none⟩) := by
    simp only [pget]
    rw [lexGet_qm]
  have hp2 : pget ⟨key.data ++ dotsChars [], none⟩ =
      (.t ⟨.tString, key, 0⟩, ⟨dotsChars [], none⟩) := by
    simp only [pget]
    rw [hkey]
  simp only [parseQuery, hp1, hp2]
  simp only [parseQueryBody]
  rw [show dotsChars [] = ([] : List Char) from rfl,
    parseDotsLoop_nil (("?" ++ key).length + 1) (.root true key [])]
  exact parseFiltersLoop_eof (("?" ++ key).length + 1) (.root true key [])

theorem string_append_empty (s : String) : s ++ "" = s := by
  obtain ⟨d⟩ := s
  show String.mk (d ++ []) = String.mk d
  rw [List.append_nil]

theorem render_root_nf (k : String) : Query.render (.root false k []) = quoteGo k := by
  show ("" ++ quoteGo k ++ renderFilters []) = quoteGo k
  show (quoteGo k ++ "") = quoteGo k
  exact string_append_empty (quoteGo k)

theorem eval_root_missing (fuel : Nat) (o : Bool) (k : String)
    (m : List (String × JValue)) (hm : lookupJ m k = none) :
    evalQueryFuel fuel (.root o k []) (.obj m) =
      if o then .error .optionalMissing
      else .error (.notFound (Query.render (.root o k []))) := by
  cases fuel with
  | zero => simp [evalQueryFuel, Query.evalWith, evalKeyStep, Query.key, Query.optFlag, hm]
  | succ f =>
    rw [evalQueryFuel_succ]
    simp [Query.evalWith, evalKeyStep, Query.key, Query.optFlag, hm]

/-- Claim C4 (amended): for a root mapping and a single-key optional path
`?key` whose key is absent, `GetString` returns the empty string together
with the `ErrorOptionalMissing` sentinel error — not a nil error as the
original claim states (the sentinel is consumed by per-field struct
extraction, not by `GetString`); for a non-optional absent key, `Get`
returns the not-found error naming the path. -/
theorem c4_optional_sentinel (key : String) (m : List (String × JValue))
    (hk : validIdent key = true) (hm : lookupJ m key = none) :
    GetString (.obj m) ("?" ++ key) = .error .optionalMissing ∧
    Get (.obj m) key = .error (.notFound (quoteGo key)) := by
  constructor
  · have hopt : Get (.obj m) ("?" ++ key) = .error .optionalMissing := by
      unfold Get
      rw [parse_opt_key key hk]
      show evalQueryFuel (fuelOf ("?" ++ key)) (.root true key []) (.obj m) = _
      rw [eval_root_missing (fuelOf ("?" ++ key)) true key m hm]
      rfl
    unfold GetString
    rw [hopt]
  · unfold Get
    rw [parse_single_key key hk]
    show evalQueryFuel (fuelOf key) (.root false key []) (.obj m) = _
    rw [eval_root_missing (fuelOf key) false key m hm]
    rw [render_root_nf key]
    rfl

/-- Counterexample to claim C4 as stated: with the key absent, the optional
path does yield the empty string but with a non-nil error (the sentinel),
so "empty string and no error" is false at this input. -/
theorem c4_counterexample :
    GetString (.obj [("a", .null)]) "?key" = .error .optionalMissing ∧
    GetString (.obj [("a", .null)]) "?key" ≠ .ok "" := by
  exact ⟨rfl, by decide⟩

theorem c4_witness :
    (validIdent "key" = true ∧ lookupJ [("a", JValue.null)] "key" = none) ∧
    (GetString (.obj [("a", JValue.null)]) ("?" ++ "key") = .error .optionalMissing ∧
     Get (.obj [("a", JValue.null)]) "key" = .error (.notFound (quoteGo "key"))) :=
  ⟨⟨by decide, rfl⟩, c4_optional_sentinel "key" [("a", JValue.null)] (by decide) rfl⟩

theorem selectLoop_err (q : String) (bad : JValue) (E : Err) (post : List JValue)
    (hbad : Get bad q = .error E) :
    ∀ pre : List JValue, (∀ p ∈ pre, ∃ w, Get p q = .ok w) →
    selectLoop q (pre ++ bad :: post) = .error E := by
  intro pre
  induction pre with
  | nil =>
    intro _
    simp only [List.nil_append, selectLoop]
    rw [hbad]
  | cons p pre ih =>
    intro hpre
    obtain ⟨w, hw⟩ := hpre p (by simp)
    have ih2 := ih (fun p2 hp2 => hpre p2 (by simp [hp2]))
    simp only [List.cons_append, selectLoop, List.append_eq]
    rw [hw, ih2]

/-- Claim C10: `Select` does not suppress the optional-missing sentinel:
when the key of an optional query `?key` is absent from a selected element
(every element before it evaluating without error), `Select` latches
`ErrorOptionalMissing` as the context error while keeping the selection, a
subsequent `Extract` re-surfaces that sentinel rather than treating the
miss as an empty selection, and only per-field struct extraction
(`extractStruct`) suppresses the sentinel, leaving the field at its
default. -/
theorem c10_select_sentinel (key : String) (m : List (String × JValue))
    (pre post : List JValue) (t : Target) (f : GoField)
    (hk : validIdent key = true) (hm : lookupJ m key = none)
    (hpre : ∀ p ∈ pre, ∃ w, Get p ("?" ++ key) = .ok w)
    (hf : f.tag = "?" ++ key) (hfk : f.kind = .fString) :
    (Context.Select ⟨pre ++ .obj m :: post, none⟩ ("?" ++ key)).err =
      some .optionalMissing ∧
    (Context.Select ⟨pre ++ .obj m :: post, none⟩ ("?" ++ key)).selection =
      pre ++ .obj m :: post ∧
    (Context.Select ⟨pre ++ .obj m :: post, none⟩ ("?" ++ key)).Extract t =
      (t, some .optionalMissing) ∧
    extractStruct (.obj m) [f] = ([f], none) := by
  have hbad : Get (.obj m) ("?" ++ key) = .error .optionalMissing := by
    unfold Get
    rw [parse_opt_key key hk]
    show evalQueryFuel (fuelOf ("?" ++ key)) (.root true key []) (.obj m) = _
    rw [eval_root_missing (fuelOf ("?" ++ key)) true key m hm]
    rfl
  have hloop := selectLoop_err ("?" ++ key) (.obj m) .optionalMissing post hbad pre hpre
  have hsel : Context.Select ⟨pre ++ .obj m :: post, none⟩ ("?" ++ key) =
      ⟨pre ++ .obj m :: post, some .optionalMissing⟩ := by
    simp only [Context.Select]
    rw [hloop]
  refine ⟨by rw [hsel], by rw [hsel], by rw [hsel]; rfl, ?_⟩
  have htag : ¬ f.tag = "" := by
    rw [hf]
    intro hcontra
    have hd := congrArg String.data hcontra
    rw [String.data_append] at hd
    simp at hd
  have hgs : GetString (.obj m) f.tag = .error .optionalMissing := by
    rw [hf]
    unfold GetString
    rw [hbad]
  simp [extractStruct, htag, hfk, hgs]

theorem c10_witness :
    (validIdent "key" = true ∧ lookupJ [("zz", JValue.null)] "key" = none ∧
      (⟨"?key", .fString, "d"⟩ : GoField).tag = "?" ++ "key" ∧
      (⟨"?key", .fString, "d"⟩ : GoField).kind = FKind.fString) ∧
    ((Context.Select ⟨[JValue.obj [("key", JValue.null)]] ++
        JValue.obj [("zz", JValue.null)] :: [], none⟩ ("?" ++ "key")).err =
      some .optionalMissing ∧
    (Context.Select ⟨[JValue.obj [("key", JValue.null)]] ++
        JValue.obj [("zz", JValue.null)] :: [], none⟩ ("?" ++ "key")).selection =
      [JValue.obj [("key", JValue.null)]] ++ JValue.obj [("zz", JValue.null)] :: [] ∧
    (Context.Select ⟨[JValue.obj [("key", JValue.null)]] ++
        JValue.obj [("zz", JValue.null)] :: [], none⟩ ("?" ++ "key")).Extract
        (.toStruct []) = (.toStruct [], some .optionalMissing) ∧
    extractStruct (JValue.obj [("zz", JValue.null)]) [⟨"?key", .fString, "d"⟩] =
      ([⟨"?key", .fString, "d"⟩], none)) :=
  ⟨⟨by decide, rfl, by decide, rfl⟩,
    c10_select_sentinel "key" [("zz", JValue.null)]
      [JValue.obj [("key", JValue.null)]] [] (.toStruct []) ⟨"?key", .fString, "d"⟩
      (by decide) rfl
      (by intro p hp; fin_cases hp; exact ⟨JValue.null, rfl⟩)
      (by decide) rfl⟩

theorem resolvePath_append (l1 : List String) :
    ∀ (v : JValue) (l2 : List String),
    resolvePath v (l1 ++ l2) = (resolvePath v l1).bind (fun w => resolvePath w l2) := by
  induction l1 with
  | nil => intro v l2; cases v <;> rfl
  | cons k l1 ih =>
    intro v l2
    cases v with
    | obj fields =>
      cases hl : lookupJ fields k with
      | some child =>
        have e1 : resolvePath (JValue.obj fields) (k :: (l1 ++ l2)) =
            resolvePath child (l1 ++ l2) := by
          show (match lookupJ fields k with
            | some c => resolvePath c (l1 ++ l2)
            | none => none) = _
          rw [hl]
        have e2 : resolvePath (JValue.obj fields) (k :: l1) = resolvePath child l1 := by
          show (match lookupJ fields k with
            | some c => resolvePath c l1
            | none => none) = _
          rw [hl]
        rw [List.cons_append, e1, e2]
        exact ih child l2
      | none =>
        have e1 : resolvePath (JValue.obj fields) (k :: (l1 ++ l2)) = none := by
          show (match lookupJ fields k with
            | some c => resolvePath c (l1 ++ l2)
            | none => none) = _
          rw [hl]
        have e2 : resolvePath (JValue.obj fields) (k :: l1) = none := by
          show (match lookupJ fields k with
            | some c => resolvePath c l1
            | none => none) = _
          rw [hl]
        rw [List.cons_append, e1, e2]
        rfl
    | null => rfl
    | bool b => rfl
    | num n => rfl
    | str s => rfl
    | arr xs => rfl

theorem evalWith_chain (gS : JValue → String → Except Err String)
    (gI : JValue → String → Except Err Int) (k : String) :
    ∀ (ks : List String) (v w : JValue),
    resolvePath v (k :: ks) = some w →
    Query.evalWith gS gI (chainOf k ks) v = .ok w := by
  intro ks
  induction ks using List.reverseRecOn with
  | nil =>
    intro v w hres
    cases v with
    | obj fields =>
      cases hl : lookupJ fields k with
      | none => simp [resolvePath, hl] at hres
      | some child =>
        simp only [resolvePath, hl] at hres
        cases hres
        simp [chainOf, Query.evalWith, evalKeyStep, Query.key, Query.optFlag,
          Query.filters, hl]
    | null => simp [resolvePath] at hres
    | bool b => simp [resolvePath] at hres
    | num n => simp [resolvePath] at hres
    | str s => simp [resolvePath] at hres
    | arr xs => simp [resolvePath] at hres
  | append_singleton ks k2 ih =>
    intro v w hres
    have hchain : chainOf k (ks ++ [k2]) = .step (chainOf k ks) false k2 [] := by
      simp [chainOf, List.foldl_append]
    rw [show k :: (ks ++ [k2]) = (k :: ks) ++ [k2] from rfl,
      resolvePath_append (k :: ks) v [k2]] at hres
    cases hmid : resolvePath v (k :: ks) with
    | none => rw [hmid] at hres; simp at hres
    | some w1 =>
      rw [hmid] at hres
      simp only [Option.some_bind] at hres
      cases w1 with
      | obj fields =>
        cases hl : lookupJ fields k2 with
        | none => simp [resolvePath, hl] at hres
        | some child =>
          simp only [resolvePath, hl] at hres
          cases hres
          rw [hchain]
          simp only [Query.evalWith]
          rw [ih v (.obj fields) hmid]
          simp [evalKeyStep, Query.key, Query.optFlag, Query.filters, hl]
      | null => simp [resolvePath] at hres
      | bool b => simp [resolvePath] at hres
      | num n => simp [resolvePath] at hres
      | str s => simp [resolvePath] at hres
      | arr xs => simp [resolvePath] at hres

theorem evalQueryFuel_chain (fuel : Nat) (k : String) (ks : List String)
    (v w : JValue) (hres : resolvePath v (k :: ks) = some w) :
    evalQueryFuel fuel (chainOf k ks) v = .ok w := by
  cases fuel with
  | zero => exact evalWith_chain _ _ k ks v w hres
  | succ f =>
    rw [evalQueryFuel_succ]
    exact evalWith_chain _ _ k ks v w hres

/-- Claim C1: for every root value and every filter-free dotted path of bare
identifier keys such that every proper prefix resolves to a mapping and the
final key is present (`resolvePath` states exactly that), `Get` returns
exactly the value stored at that location, not wrapped as a sequence.  The
embedding is purely functional, so repeating the call necessarily returns
the same result and leaves the root untouched. -/
theorem c1_get_dotted_path (k : String) (ks : List String) (root v : JValue)
    (hk : validIdent k = true) (hks : ∀ k2 ∈ ks, validIdent k2 = true)
    (hres : resolvePath root (k :: ks) = some v) :
    Get root (dottedPath (k :: ks)) = .ok v := by
  unfold Get
  rw [parse_dotted k ks hk hks]
  exact evalQueryFuel_chain (fuelOf (dottedPath (k :: ks))) k ks root v hres

theorem c1_witness :
    (validIdent "issue" = true ∧ (∀ k2 ∈ ["key"], validIdent k2 = true) ∧
      resolvePath (.obj [("issue", .obj [("key", .str "OP-1")])]) ["issue", "key"] =
        some (.str "OP-1") ∧
      dottedPath ["issue", "key"] = "issue.key") ∧
    Get (.obj [("issue", .obj [("key", .str "OP-1")])]) (dottedPath ["issue", "key"]) =
      .ok (.str "OP-1") :=
  ⟨⟨by decide, by decide, rfl, by decide⟩,
    c1_get_dotted_path "issue" ["key"]
      (.obj [("issue", .obj [("key", .str "OP-1")])]) (.str "OP-1")
      (by decide) (by decide) rfl⟩

/-- Claim C3: the lexer's `Get` recognizes, at the head of the input:
single-character tokens for `.` `[` `]` `?`; two-character operator tokens
for `&&` `||` `==` `!=` `<=` `>=`; single-character comparison tokens for
`<` and `>` (when not followed by `=`, or at end of input); string tokens
for double-quoted literals and for bare identifiers (a letter followed by
letters/digits/underscore); and integer tokens carrying the decimal value
for numerals that fit a native `int`.  The lexer of this revision is
modelled from the spec, its source being absent from src/. -/
theorem c3_lexer_tokens :
    (∀ cs : List Char, lexGet ('.' :: cs) = .tok ⟨.tDot, "", 0⟩ cs) ∧
    (∀ cs : List Char, lexGet ('[' :: cs) = .tok ⟨.tLBracket, "", 0⟩ cs) ∧
    (∀ cs : List Char, lexGet (']' :: cs) = .tok ⟨.tRBracket, "", 0⟩ cs) ∧
    (∀ cs : List Char, lexGet ('?' :: cs) = .tok ⟨.tQuestionMark, "", 0⟩ cs) ∧
    (∀ cs : List Char, lexGet ('&' :: '&' :: cs) = .tok ⟨.tAnd, "", 0⟩ cs) ∧
    (∀ cs : List Char, lexGet ('|' :: '|' :: cs) = .tok ⟨.tOr, "", 0⟩ cs) ∧
    (∀ cs : List Char, lexGet ('=' :: '=' :: cs) = .tok ⟨.tEq, "", 0⟩ cs) ∧
    (∀ cs : List Char, lexGet ('!' :: '=' :: cs) = .tok ⟨.tNeq, "", 0⟩ cs) ∧
    (∀ cs : List Char, lexGet ('<' :: '=' :: cs) = .tok ⟨.tLe, "", 0⟩ cs) ∧
    (∀ cs : List Char, lexGet ('>' :: '=' :: cs) = .tok ⟨.tGe, "", 0⟩ cs) ∧
    (∀ (d : Char) (cs : List Char), ¬ d = '=' →
      lexGet ('<' :: d :: cs) = .tok ⟨.tLt, "", 0⟩ (d :: cs)) ∧
    (∀ (d : Char) (cs : List Char), ¬ d = '=' →
      lexGet ('>' :: d :: cs) = .tok ⟨.tGt, "", 0⟩ (d :: cs)) ∧
    (lexGet ['<'] = .tok ⟨.tLt, "", 0⟩ [] ∧ lexGet ['>'] = .tok ⟨.tGt, "", 0⟩ []) ∧
    (∀ s rest : List Char, (∀ ch ∈ s, ¬ ch = '"') →
      lexGet ('"' :: (s ++ '"' :: rest)) = .tok ⟨.tString, String.mk s, 0⟩ rest) ∧
    (∀ (c : Char) (cs : List Char), isLetterC c = true →
      lexGet (c :: cs) =
        .tok ⟨.tString, String.mk (c :: cs.takeWhile isIdentC), 0⟩
          (cs.dropWhile isIdentC)) ∧
    (∀ (c : Char) (cs : List Char), isDigitC c = true →
      digitsVal (c :: cs.takeWhile isDigitC) ≤ maxGoInt →
      lexGet (c :: cs) =
        .tok ⟨.tInt, "", Int.ofNat (digitsVal (c :: cs.takeWhile isDigitC))⟩
          (cs.dropWhile isDigitC)) := by
  refine ⟨lexGet_dot, lexGet_lb, lexGet_rb, lexGet_qm, lexGet_and, lexGet_or,
    lexGet_eq2, lexGet_neq, lexGet_le, lexGet_ge, lexGet_lt, lexGet_gt,
    ⟨rfl, rfl⟩, lexGet_quoted, lexGet_ident, ?_⟩
  intro c cs hd hrange
  rw [lexGet_num c cs hd]
  simp [atoi, hrange]

theorem c3_witness :
    ((¬ 'a' = '=') ∧ (∀ ch ∈ (['o', 'k'] : List Char), ¬ ch = '"') ∧
      isLetterC 'a' = true ∧ isDigitC '4' = true ∧
      digitsVal ('4' :: List.takeWhile isDigitC ['2', ']']) ≤ maxGoInt) ∧
    (lexGet ('<' :: 'a' :: []) = .tok ⟨.tLt, "", 0⟩ ['a'] ∧
    lexGet ('"' :: (['o', 'k'] ++ '"' :: [])) = .tok ⟨.tString, "ok", 0⟩ [] ∧
    lexGet ('a' :: '1' :: '.' :: []) = .tok ⟨.tString, "a1", 0⟩ ['.'] ∧
    lexGet ('4' :: '2' :: ']' :: []) = .tok ⟨.tInt, "", 42⟩ [']']) := by
  obtain ⟨h1, h2, h3, h4, h5, h6, h7, h8, h9, h10, h11, h12, h13, h14, h15, h16⟩ :=
    c3_lexer_tokens
  exact ⟨⟨by decide, by decide, by decide, by decide, by decide⟩,
    h11 'a' [] (by decide),
    h14 ['o', 'k'] [] (by decide),
    h15 'a' ['1', '.'] (by decide),
    h16 '4' ['2', ']'] (by decide) (by decide)⟩

end Jsonq



